import Mathlib

/-!
Verification development for the go-pipeline batch-accumulation engine as
documented by this repository (a documentation site for the library
`github.com/rushairer/go-pipeline/v2`).  Where the repository shows the Go
source of a function verbatim (the `PipelineError` methods, the
`validateConfig` example, the default-configuration constants), the Lean
definition is a direct embedding of that code.  The accumulator loop itself
is not part of this repository; its model is written from the
specification's state-machine description and marked `Modelled from the
spec:` in the corresponding doc comments.
-/

namespace GoPipeline

/-- Embedded from the Go code shown in the configuration guide:
`type PipelineConfig struct { BufferSize uint32; FlushSize uint32;
FlushInterval time.Duration }`.  The two `uint32` fields are modelled as
`Nat` (values below `2^32`); the duration is modelled as an `Int` count of
nanoseconds, matching Go's signed 64-bit `time.Duration`. -/
structure PipelineConfig where
  BufferSize : Nat
  FlushSize : Nat
  FlushInterval : Int
  deriving DecidableEq, Repr

/-- Embedded from the configuration guide's default-constant block:
`defaultBufferSize = 100`. -/
def defaultBufferSize : Nat := 100

/-- Embedded from the configuration guide's default-constant block:
`defaultFlushSize = 50`. -/
def defaultFlushSize : Nat := 50

/-- Embedded from the configuration guide's default-constant block:
`defaultFlushInterval = time.Millisecond * 50`, expressed in nanoseconds
(`time.Millisecond = 1e6 ns`). -/
def defaultFlushInterval : Int := 50 * 1000000

/-- Modelled from the spec: `NewPipelineConfig()` constructs a configuration
with the documented default values (the constructor body is not part of this
repository; the constants it installs are embedded above from the
configuration guide). -/
def NewPipelineConfig : PipelineConfig :=
  { BufferSize := defaultBufferSize
    FlushSize := defaultFlushSize
    FlushInterval := defaultFlushInterval }

/-- Embedded from `validateConfig` in the configuration guide (配置合理性检查):
the checks run in source order — buffer/flush ratio first, then zero
`FlushSize`, then non-positive `FlushInterval`.  `config.FlushSize*2` is
computed in Go `uint32` arithmetic, hence the reduction modulo `2^32`.
Returns `some message` for the error case and `none` for acceptance. -/
def validateConfig (config : PipelineConfig) : Option String :=
  if config.BufferSize < config.FlushSize * 2 % 4294967296 then
    some "BufferSize should be at least 2x FlushSize"
  else if config.FlushSize = 0 then
    some "FlushSize cannot be zero"
  else if config.FlushInterval ≤ 0 then
    some "FlushInterval must be positive"
  else
    none

/-- Embedded from the API reference: the cause of a `PipelineError` is a Go
`error` value, observed only through its message (`Error()` string). -/
structure GoErr where
  message : String
  deriving DecidableEq, Repr

/-- Embedded from the API reference:
`type PipelineError struct { Op string; Err error }`. -/
structure PipelineError where
  Op : String
  Err : GoErr
  deriving DecidableEq, Repr

/-- Embedded from the API reference:
`func (e *PipelineError) Error() string { return fmt.Sprintf("pipeline %s: %v", e.Op, e.Err) }`;
`%v` on an error prints its message. -/
def PipelineError.Error (e : PipelineError) : String :=
  "pipeline " ++ e.Op ++ ": " ++ e.Err.message

/-- Embedded from the API reference:
`func (e *PipelineError) Unwrap() error { return e.Err }`. -/
def PipelineError.Unwrap (e : PipelineError) : GoErr :=
  e.Err

/-- Modelled from the spec: the event sources the accumulator loop selects
over — an item arriving on the data channel, a flush-interval timer tick,
the producer closing the data channel, and external context cancellation. -/
inductive Event (α : Type) where
  | arrive : α → Event α
  | tick : Event α
  | closeInput : Event α
  | cancel : Event α
  deriving DecidableEq, Repr

/-- Modelled from the spec: the observable state of a Standard-strategy
engine instance — the pending (not yet flushed) batch in arrival order, the
batches delivered to the flush callback in call order, the errors published
to the error sink in order, and whether the loop has exited (`stopped`),
distinguishing exit by cancellation (`canceled`). -/
structure StdState (α : Type) where
  pending : List α
  flushed : List (List α)
  errors : List String
  stopped : Bool
  canceled : Bool
  deriving DecidableEq, Repr

/-- Modelled from the spec: the initial engine state — empty batch, nothing
flushed, loop running. -/
def stdInit {α : Type} : StdState α :=
  { pending := [], flushed := [], errors := [], stopped := false, canceled := false }

/-- Modelled from the spec: one flush attempt.  The callback is invoked on
the pending batch; on failure the error goes to the error sink; in either
case the batch is reset to empty and the loop continues. -/
def stdFlush {α : Type} (flushFn : List α → Option String) (s : StdState α) :
    StdState α :=
  match flushFn s.pending with
  | none =>
      { s with pending := [], flushed := s.flushed ++ [s.pending] }
  | some e =>
      { s with pending := [], flushed := s.flushed ++ [s.pending],
               errors := s.errors ++ [e] }

/-- Modelled from the spec: one step of the accumulator loop (§4.3 state
machine).  A stopped loop consumes no further events.  On arrival the item
is appended; if the batch reaches `FlushSize` it is flushed immediately
(size-triggered).  On a timer tick an empty batch is a no-op, a non-empty
batch is flushed (time-triggered).  On close of the data channel a final
flush is performed when the batch is non-empty and the loop exits.  On
cancellation the loop exits at once without starting a new flush. -/
def stdStep {α : Type} (flushSize : Nat) (flushFn : List α → Option String)
    (s : StdState α) (e : Event α) : StdState α :=
  if s.stopped then s else
  match e with
  | .arrive a =>
      let p := s.pending ++ [a]
      if flushSize ≤ p.length then stdFlush flushFn { s with pending := p }
      else { s with pending := p }
  | .tick =>
      if s.pending.isEmpty then s else stdFlush flushFn s
  | .closeInput =>
      if s.pending.isEmpty then { s with stopped := true }
      else { stdFlush flushFn s with stopped := true }
  | .cancel =>
      { s with stopped := true, canceled := true }

/-- Modelled from the spec: run the accumulator loop over a finite event
trace from the initial state. -/
def stdRun {α : Type} (flushSize : Nat) (flushFn : List α → Option String)
    (events : List (Event α)) : StdState α :=
  events.foldl (stdStep flushSize flushFn) stdInit

/-- A flush callback that always succeeds. -/
def alwaysOk {α : Type} : List α → Option String := fun _ => none

/-- Pure chunking of an arrival stream: items are appended to a pending
buffer and a chunk is emitted whenever the buffer reaches `B`; a trailing
non-empty buffer becomes one final chunk (the close-triggered flush). -/
def chunksFrom {α : Type} (B : Nat) : List α → List α → List (List α)
  | pending, [] => if pending.isEmpty then [] else [pending]
  | pending, a :: rest =>
      if B ≤ pending.length + 1 then (pending ++ [a]) :: chunksFrom B [] rest
      else chunksFrom B (pending ++ [a]) rest

@[simp]
lemma stdFlush_pending {α : Type} (f : List α → Option String) (s : StdState α) :
    (stdFlush f s).pending = [] := by
  cases h : f s.pending <;> simp [stdFlush, h]

@[simp]
lemma stdFlush_flushed {α : Type} (f : List α → Option String) (s : StdState α) :
    (stdFlush f s).flushed = s.flushed ++ [s.pending] := by
  cases h : f s.pending <;> simp [stdFlush, h]

@[simp]
lemma stdFlush_stopped {α : Type} (f : List α → Option String) (s : StdState α) :
    (stdFlush f s).stopped = s.stopped := by
  cases h : f s.pending <;> simp [stdFlush, h]

@[simp]
lemma stdFlush_canceled {α : Type} (f : List α → Option String) (s : StdState α) :
    (stdFlush f s).canceled = s.canceled := by
  cases h : f s.pending <;> simp [stdFlush, h]

/-- Membership in `dropLast` of a cons: either the head or a member of the
tail's `dropLast`. -/
lemma mem_dropLast_cons {β : Type} {x b : β} {l : List β}
    (hb : b ∈ (x :: l).dropLast) : b = x ∨ b ∈ l.dropLast := by
  cases l with
  | nil => simp at hb
  | cons c L =>
      rw [List.dropLast_cons₂] at hb
      simpa using hb

/-- Running the loop over an arrival stream terminated by closing the data
channel produces exactly the chunks of the stream as delivered batches. -/
lemma foldl_arrive_close {α : Type} (B : Nat) (f : List α → Option String) :
    ∀ (items : List α) (s : StdState α), s.stopped = false →
      (List.foldl (stdStep B f) s (items.map Event.arrive ++ [Event.closeInput])).flushed
        = s.flushed ++ chunksFrom B s.pending items := by
  intro items
  induction items with
  | nil =>
      intro s hs
      by_cases hp : s.pending = [] <;>
        simp [stdStep, hs, hp, chunksFrom, List.isEmpty_iff]
  | cons a rest ih =>
      intro s hs
      simp only [List.map_cons, List.cons_append, List.foldl_cons]
      by_cases hfull : B ≤ s.pending.length + 1
      · have hfull2 : B ≤ (s.pending ++ [a]).length := by simp; omega
        have hstep : stdStep B f s (Event.arrive a)
            = stdFlush f { s with pending := s.pending ++ [a] } := by
          simp only [stdStep, hs, Bool.false_eq_true, if_false]
          rw [if_pos hfull2]
        rw [hstep, ih _ (by simp [hs])]
        simp [chunksFrom, hfull]
      · have hfull2 : ¬ B ≤ (s.pending ++ [a]).length := by simp; omega
        have hstep : stdStep B f s (Event.arrive a)
            = { s with pending := s.pending ++ [a] } := by
          simp only [stdStep, hs, Bool.false_eq_true, if_false]
          rw [if_neg hfull2]
        rw [hstep, ih _ (by simp [hs])]
        simp [chunksFrom, hfull]

/-- Concatenating the chunks recovers the buffered prefix followed by the
arrival stream. -/
lemma chunksFrom_flatten {α : Type} (B : Nat) :
    ∀ (items pending : List α), (chunksFrom B pending items).flatten = pending ++ items := by
  intro items
  induction items with
  | nil =>
      intro pending
      by_cases hp : pending = [] <;> simp [chunksFrom, List.isEmpty_iff, hp]
  | cons a rest ih =>
      intro pending
      by_cases hfull : B ≤ pending.length + 1 <;>
        simp [chunksFrom, hfull, ih]

/-- The number of chunks is the ceiling of the item count over `B`. -/
lemma chunksFrom_length {α : Type} (B : Nat) :
    ∀ (items pending : List α), pending.length < B →
      (chunksFrom B pending items).length = (pending.length + items.length + B - 1) / B := by
  intro items
  induction items with
  | nil =>
      intro pending hlt
      by_cases hp : pending = []
      · subst hp
        simp [chunksFrom]
        rw [Nat.div_eq_of_lt (by omega)]
      · have h1 : 1 ≤ pending.length := List.length_pos.mpr hp
        have hnum : pending.length + ([] : List α).length + B - 1
            = (pending.length - 1) + B := by simp; omega
        rw [hnum]
        have hemp : pending.isEmpty = false := by
          simp [List.isEmpty_iff, hp]
        simp only [chunksFrom, hemp, Bool.false_eq_true, if_false,
          List.length_singleton]
        rw [Nat.add_div_right _ (by omega), Nat.div_eq_of_lt (by omega)]
  | cons a rest ih =>
      intro pending hlt
      by_cases hfull : B ≤ pending.length + 1
      · have hB : pending.length + 1 = B := by omega
        have hnum : pending.length + (a :: rest).length + B - 1
            = (rest.length + B - 1) + B := by simp; omega
        rw [hnum, Nat.add_div_right _ (by omega)]
        simp only [chunksFrom, if_pos hfull, List.length_cons]
        have hrec := ih ([] : List α) (by simp; omega)
        simp only [List.length_nil, Nat.zero_add] at hrec
        rw [hrec]
      · have hlt' : (pending ++ [a]).length < B := by simp; omega
        have hrec := ih (pending ++ [a]) hlt'
        simp only [chunksFrom, if_neg hfull]
        rw [hrec]
        congr 1
        simp
        omega

/-- Every chunk except possibly the last has exactly `B` items. -/
lemma chunksFrom_dropLast {α : Type} (B : Nat) :
    ∀ (items pending : List α), pending.length < B →
      ∀ b ∈ (chunksFrom B pending items).dropLast, b.length = B := by
  intro items
  induction items with
  | nil =>
      intro pending _ b hb
      by_cases hp : pending = [] <;>
        simp [chunksFrom, List.isEmpty_iff, hp] at hb
  | cons a rest ih =>
      intro pending hlt b hb
      by_cases hfull : B ≤ pending.length + 1
      · simp only [chunksFrom, if_pos hfull] at hb
        rcases mem_dropLast_cons hb with hb | hb
        · subst hb
          simp
          omega
        · exact ih ([] : List α) (by simp; omega) b hb
      · simp only [chunksFrom, if_neg hfull] at hb
        exact ih (pending ++ [a]) (by simp; omega) b hb

/-- C1: For every finite input sequence of `N` items fed to the Standard
strategy with batch-size threshold `B ≥ 1` (arrivals followed by closing the
input sink), the flush callback is invoked exactly `⌈N/B⌉` times, every
delivered batch except possibly the last has exactly `B` items, and the
concatenation of the delivered batches in call order equals the input
sequence in arrival order; in particular, with `B = 3` and input
`[1,2,3,4,5]` the callback receives `[1,2,3]` and then `[4,5]`. -/
theorem standard_order_preserving_batching :
    (∀ (α : Type) (B : Nat) (flushFn : List α → Option String) (items : List α),
        1 ≤ B →
        (stdRun B flushFn (items.map Event.arrive ++ [Event.closeInput])).flushed.length
            = (items.length + B - 1) / B
          ∧ (∀ b ∈ (stdRun B flushFn
                (items.map Event.arrive ++ [Event.closeInput])).flushed.dropLast,
              b.length = B)
          ∧ (stdRun B flushFn
                (items.map Event.arrive ++ [Event.closeInput])).flushed.flatten = items)
    ∧ (stdRun 3 alwaysOk ([1, 2, 3, 4, 5].map Event.arrive
          ++ [Event.closeInput])).flushed = [[1, 2, 3], [4, 5]] := by
  constructor
  · intro α B flushFn items hB
    have hrun : (stdRun B flushFn (items.map Event.arrive ++ [Event.closeInput])).flushed
        = chunksFrom B ([] : List α) items := by
      have := foldl_arrive_close B flushFn items stdInit rfl
      simpa [stdRun, stdInit] using this
    refine ⟨?_, ?_, ?_⟩
    · rw [hrun, chunksFrom_length B items [] (by simp; omega)]
      simp
    · intro b hb
      rw [hrun] at hb
      exact chunksFrom_dropLast B items [] (by simp; omega) b hb
    · rw [hrun, chunksFrom_flatten]
      simp
  · rfl

/-- Closed witness for C1 at `B = 3`, input `[1,2,3,4,5]`. -/
theorem standard_order_preserving_batching_witness :
    (stdRun 3 alwaysOk ([1, 2, 3, 4, 5].map Event.arrive
        ++ [Event.closeInput])).flushed.length = (5 + 3 - 1) / 3
      ∧ (stdRun 3 alwaysOk ([1, 2, 3, 4, 5].map Event.arrive
          ++ [Event.closeInput])).flushed.flatten = [1, 2, 3, 4, 5] := by
  have h := standard_order_preserving_batching.1 Nat 3 alwaysOk
    [1, 2, 3, 4, 5] (by decide)
  exact ⟨h.1, h.2.2⟩

/-- Modelled from the spec: the Deduplication strategy's live container — a
mapping from extracted key to the most-recently-seen item with that key.
Modelled as an association list with pairwise-distinct keys; `updateAssoc`
overwrites in place (last-write-wins), appending a fresh key at the end. -/
def updateAssoc {K α : Type} [DecidableEq K] : List (K × α) → K → α → List (K × α)
  | [], k, a => [(k, a)]
  | (k2, b) :: rest, k, a =>
      if k2 = k then (k, a) :: rest else (k2, b) :: updateAssoc rest k a

/-- Modelled from the spec: the Deduplication strategy's `add` folded over a
whole arrival segment, starting from the empty container — exactly the
container contents at a flush boundary for the items added since the
previous boundary. -/
def dedupAccum {K α : Type} [DecidableEq K] (keyFn : α → K) (items : List α) :
    List (K × α) :=
  items.foldl (fun m a => updateAssoc m (keyFn a) a) []

/-- Lookup of a key in the container. -/
def lookupKey {K α : Type} [DecidableEq K] : List (K × α) → K → Option α
  | [], _ => none
  | (k2, a) :: rest, k => if k2 = k then some a else lookupKey rest k

/-- Modelled from the spec: `drain` returns the mapping's values (the
delivered batch; its order is implementation-defined). -/
def dedupDrain {K α : Type} (m : List (K × α)) : List α :=
  m.map Prod.snd

/-- The last element of a list satisfying a predicate, if any. -/
def lastWith {α : Type} (p : α → Bool) : List α → Option α
  | [] => none
  | a :: rest =>
      match lastWith p rest with
      | some b => some b
      | none => if p a then some a else none

lemma lookupKey_updateAssoc {K α : Type} [DecidableEq K]
    (m : List (K × α)) (k2 k : K) (a : α) :
    lookupKey (updateAssoc m k2 a) k
      = if k2 = k then some a else lookupKey m k := by
  induction m with
  | nil => simp [updateAssoc, lookupKey]
  | cons pair rest ih =>
      obtain ⟨k3, b⟩ := pair
      by_cases h32 : k3 = k2
      · subst h32
        by_cases h3k : k3 = k <;> simp [updateAssoc, lookupKey, h3k]
      · by_cases h3k : k3 = k
        · subst h3k
          simp [updateAssoc, lookupKey, h32, Ne.symm h32]
        · simp [updateAssoc, lookupKey, h32, h3k, ih]

/-- The keys of the container, in storage order. -/
def keysOf {K α : Type} : List (K × α) → List K
  | [] => []
  | (k, _) :: rest => k :: keysOf rest

lemma mem_keysOf_updateAssoc {K α : Type} [DecidableEq K]
    (m : List (K × α)) (k2 k : K) (a : α)
    (h : k ∈ keysOf (updateAssoc m k2 a)) :
    k = k2 ∨ k ∈ keysOf m := by
  induction m with
  | nil => simpa [updateAssoc, keysOf] using h
  | cons pair rest ih =>
      obtain ⟨k3, b⟩ := pair
      by_cases h32 : k3 = k2
      · subst h32
        simp [updateAssoc, keysOf] at h ⊢
        tauto
      · simp [updateAssoc, keysOf, h32] at h ⊢
        rcases h with h | h
        · tauto
        · rcases ih h with h2 | h2 <;> tauto

lemma nodup_keysOf_updateAssoc {K α : Type} [DecidableEq K]
    (m : List (K × α)) (k : K) (a : α)
    (h : (keysOf m).Nodup) :
    (keysOf (updateAssoc m k a)).Nodup := by
  induction m with
  | nil => simp [updateAssoc, keysOf]
  | cons pair rest ih =>
      obtain ⟨k2, b⟩ := pair
      rw [keysOf, List.nodup_cons] at h
      by_cases h2k : k2 = k
      · subst h2k
        rw [updateAssoc, if_pos rfl, keysOf, List.nodup_cons]
        exact h
      · rw [updateAssoc, if_neg h2k, keysOf, List.nodup_cons]
        refine ⟨fun hmem => ?_, ih h.2⟩
        rcases mem_keysOf_updateAssoc rest k k2 a hmem with h3 | h3
        · exact h2k h3
        · exact h.1 h3

lemma nodup_keysOf_dedup_foldl {K α : Type} [DecidableEq K] (keyFn : α → K) :
    ∀ (items : List α) (m : List (K × α)), (keysOf m).Nodup →
      (keysOf (items.foldl (fun m2 a => updateAssoc m2 (keyFn a) a) m)).Nodup := by
  intro items
  induction items with
  | nil => intro m hm; simpa using hm
  | cons a rest ih =>
      intro m hm
      simp only [List.foldl_cons]
      exact ih _ (nodup_keysOf_updateAssoc m (keyFn a) a hm)

lemma lookup_dedup_foldl {K α : Type} [DecidableEq K] (keyFn : α → K) (k : K) :
    ∀ (items : List α) (m : List (K × α)),
      lookupKey (items.foldl (fun m2 a => updateAssoc m2 (keyFn a) a) m) k
        = match lastWith (fun x => decide (keyFn x = k)) items with
          | some b => some b
          | none => lookupKey m k := by
  intro items
  induction items with
  | nil => intro m; simp [lastWith]
  | cons a rest ih =>
      intro m
      simp only [List.foldl_cons]
      rw [ih]
      cases h : lastWith (fun x => decide (keyFn x = k)) rest with
      | some b => simp [lastWith, h]
      | none =>
          rw [lookupKey_updateAssoc]
          by_cases hk : keyFn a = k <;> simp [lastWith, h, hk]

/-- C2: For the Deduplication strategy with key function `keyFn`, the
container accumulated from the items added since the previous flush boundary
(that is, any single flushed batch) holds at most one item per distinct key,
and the item stored for a key is the last item with that key added before
the boundary (last-write-wins); in particular, with `keyFn x = x % 3` and
input `[1,4,2,7]`, the drained batch is exactly two items — `7` for key `1`
and `2` for key `2`. -/
theorem dedup_last_write_wins :
    (∀ (K α : Type) [DecidableEq K] (keyFn : α → K) (items : List α),
        (keysOf (dedupAccum keyFn items)).Nodup
          ∧ ∀ k : K, lookupKey (dedupAccum keyFn items) k
              = lastWith (fun x => decide (keyFn x = k)) items)
    ∧ (dedupDrain (dedupAccum (fun x : Nat => x % 3) [1, 4, 2, 7]) = [7, 2]
        ∧ lookupKey (dedupAccum (fun x : Nat => x % 3) [1, 4, 2, 7]) 1 = some 7
        ∧ lookupKey (dedupAccum (fun x : Nat => x % 3) [1, 4, 2, 7]) 2 = some 2
        ∧ (dedupAccum (fun x : Nat => x % 3) [1, 4, 2, 7]).length = 2) := by
  constructor
  · intro K α inst keyFn items
    constructor
    · exact nodup_keysOf_dedup_foldl keyFn items [] (by simp [keysOf])
    · intro k
      rw [dedupAccum, lookup_dedup_foldl]
      cases h : lastWith (fun x => decide (keyFn x = k)) items <;>
        simp [lookupKey]
  · refine ⟨rfl, rfl, rfl, rfl⟩

/-- Arrivals that never fill the batch only accumulate into `pending`. -/
lemma foldl_arrive_small {α : Type} (B : Nat) (f : List α → Option String) :
    ∀ (items : List α) (s : StdState α), s.stopped = false →
      s.pending.length + items.length < B →
      List.foldl (stdStep B f) s (items.map Event.arrive)
        = { s with pending := s.pending ++ items } := by
  intro items
  induction items with
  | nil => intro s _ _; simp
  | cons a rest ih =>
      intro s hs hlen
      have hsmall : ¬ B ≤ (s.pending ++ [a]).length := by simp at hlen ⊢; omega
      have hstep : stdStep B f s (Event.arrive a)
          = { s with pending := s.pending ++ [a] } := by
        simp only [stdStep, hs, Bool.false_eq_true, if_false]
        rw [if_neg hsmall]
      simp only [List.map_cons, List.foldl_cons, hstep]
      rw [ih _ (by simp [hs]) (by simp at hlen ⊢; omega)]
      simp

/-- A stopped loop absorbs every event. -/
lemma stdStep_stopped {α : Type} (B : Nat) (f : List α → Option String)
    (s : StdState α) (e : Event α) (hs : s.stopped = true) :
    stdStep B f s e = s := by
  simp [stdStep, hs]

/-- A stopped loop absorbs every trace. -/
lemma foldl_stopped {α : Type} (B : Nat) (f : List α → Option String) :
    ∀ (events : List (Event α)) (s : StdState α), s.stopped = true →
      List.foldl (stdStep B f) s events = s := by
  intro events
  induction events with
  | nil => intro s _; rfl
  | cons e rest ih =>
      intro s hs
      rw [List.foldl_cons, stdStep_stopped B f s e hs, ih s hs]

/-- C3: A timer tick on an empty pending batch never triggers a flush (the
step is a no-op and no callback runs), and when fewer than `B` items arrive
and nothing further arrives, the first subsequent timer tick — which occurs
within one `flushInterval` of the first item's arrival — flushes the
non-empty pending batch in full. -/
theorem timer_tick_flush_policy :
    (∀ (α : Type) (B : Nat) (f : List α → Option String) (s : StdState α),
        s.pending = [] → stdStep B f s Event.tick = s)
    ∧ (∀ (α : Type) (B : Nat) (f : List α → Option String) (items : List α),
        items ≠ [] → items.length < B →
        (stdRun B f (items.map Event.arrive ++ [Event.tick])).flushed = [items]
          ∧ (stdRun B f (items.map Event.arrive ++ [Event.tick])).pending = []) := by
  constructor
  · intro α B f s hp
    by_cases hs : s.stopped <;> simp [stdStep, hs, hp]
  · intro α B f items hne hlen
    have hacc : List.foldl (stdStep B f) stdInit (items.map Event.arrive)
        = { stdInit with pending := items } := by
      rw [foldl_arrive_small B f items stdInit rfl (by simp [stdInit]; omega)]
      simp [stdInit]
    have hemp : items.isEmpty = false := by
      simp [List.isEmpty_iff, hne]
    have htick : stdStep B f { stdInit with pending := items } Event.tick
        = stdFlush f { stdInit with pending := items } := by
      simp [stdStep, stdInit, hemp]
    rw [stdRun, List.foldl_append, hacc]
    simp only [List.foldl_cons, List.foldl_nil, htick]
    constructor
    · rw [stdFlush_flushed]
      simp [stdInit]
    · rw [stdFlush_pending]

/-- C4: Closing the input sink with a non-empty pending batch causes exactly
one additional flush delivering all remaining pending items, after which the
loop is stopped; closing it with an empty pending batch causes zero
additional flushes and the loop stops at once. -/
theorem close_input_final_flush :
    ∀ (α : Type) (B : Nat) (f : List α → Option String) (s : StdState α),
      s.stopped = false →
      (s.pending ≠ [] →
          (stdStep B f s Event.closeInput).flushed = s.flushed ++ [s.pending]
            ∧ (stdStep B f s Event.closeInput).pending = []
            ∧ (stdStep B f s Event.closeInput).stopped = true)
        ∧ (s.pending = [] →
            (stdStep B f s Event.closeInput).flushed = s.flushed
              ∧ (stdStep B f s Event.closeInput).stopped = true) := by
  intro α B f s hs
  constructor
  · intro hp
    have hemp : s.pending.isEmpty = false := by
      simp [List.isEmpty_iff, hp]
    simp [stdStep, hs, hemp]
  · intro hp
    simp [stdStep, hs, hp]

/-- Closed witness for C4: closing with pending `[4,5]` after `[1,2,3]` was
already flushed delivers exactly one more batch `[4,5]`; closing the already
drained state adds nothing. -/
theorem close_input_final_flush_witness :
    (stdStep 3 alwaysOk
        { pending := [4, 5], flushed := [[1, 2, 3]], errors := [],
          stopped := false, canceled := false } Event.closeInput).flushed
        = [[1, 2, 3]] ++ [[4, 5]]
      ∧ (stdStep 3 (alwaysOk (α := Nat))
          { pending := [], flushed := [[1, 2, 3]], errors := [],
            stopped := false, canceled := false } Event.closeInput).flushed
          = [[1, 2, 3]] := by
  refine ⟨((close_input_final_flush Nat 3 alwaysOk _ rfl).1 (by decide)).1,
    ((close_input_final_flush Nat 3 alwaysOk _ rfl).2 rfl).1⟩

/-- Closed witness for C3: a tick on the fresh (empty) engine is a no-op,
and two items with threshold `3` are flushed in full by the next tick. -/
theorem timer_tick_flush_policy_witness :
    stdStep 3 (alwaysOk (α := Nat)) stdInit Event.tick = stdInit
      ∧ (stdRun 3 alwaysOk ([1, 2].map Event.arrive ++ [Event.tick])).flushed = [[1, 2]]
      ∧ (stdRun 3 alwaysOk ([1, 2].map Event.arrive ++ [Event.tick])).pending = [] := by
  refine ⟨timer_tick_flush_policy.1 Nat 3 alwaysOk stdInit rfl, ?_, ?_⟩
  · exact (timer_tick_flush_policy.2 Nat 3 alwaysOk [1, 2] (by decide) (by decide)).1
  · exact (timer_tick_flush_policy.2 Nat 3 alwaysOk [1, 2] (by decide) (by decide)).2

/-- C5: A flush whose callback fails still resets the pending batch to
empty, appends the error to the error sink instead of raising it to the
caller, and leaves the loop running; concretely, with a callback that always
fails and `B = 2`, the input `[1,2,3]` still produces both callback
invocations `[1,2]` and `[3]` with two errors on the sink. -/
theorem flush_error_not_fatal :
    (∀ (α : Type) (B : Nat) (f : List α → Option String) (s : StdState α)
        (msg : String),
        s.stopped = false → s.pending ≠ [] → f s.pending = some msg →
        stdStep B f s Event.tick
          = { pending := [], flushed := s.flushed ++ [s.pending],
              errors := s.errors ++ [msg], stopped := false,
              canceled := s.canceled })
    ∧ ((stdRun 2 (fun _ => some "boom")
          ([1, 2, 3].map Event.arrive ++ [Event.closeInput])).flushed = [[1, 2], [3]]
        ∧ (stdRun 2 (fun _ => some "boom")
            ([1, 2, 3].map Event.arrive ++ [Event.closeInput])).errors
            = ["boom", "boom"]
        ∧ (stdRun 2 (fun _ => some "boom")
            ([1, 2, 3].map Event.arrive ++ [Event.closeInput])).stopped = true) := by
  constructor
  · intro α B f s msg hs hp hf
    have hemp : s.pending.isEmpty = false := by
      simp [List.isEmpty_iff, hp]
    simp [stdStep, hs, hemp, stdFlush, hf]
  · refine ⟨rfl, rfl, rfl⟩

/-- Closed witness for C5: one failing flush of `[1]` delivers the batch to
the callback, routes the error to the sink, resets the batch, and leaves the
loop running. -/
theorem flush_error_not_fatal_witness :
    stdStep 2 (fun _ => some "boom")
        { pending := [1], flushed := [], errors := [], stopped := false,
          canceled := false } Event.tick
      = { pending := [], flushed := [] ++ [[1]], errors := [] ++ ["boom"],
          stopped := false, canceled := false } :=
  flush_error_not_fatal.1 Nat 2 (fun _ => some "boom") _ "boom" rfl
    (by decide) rfl

/-- C7: Once external cancellation is observed the loop never starts a new
flush — the cancellation step itself delivers no batch and publishes no
error, it marks the loop stopped, and any events after the cancellation
leave the engine state entirely unchanged. -/
theorem cancellation_halts_loop :
    (∀ (α : Type) (B : Nat) (f : List α → Option String) (s : StdState α),
        (stdStep B f s Event.cancel).flushed = s.flushed
          ∧ (stdStep B f s Event.cancel).errors = s.errors
          ∧ (stdStep B f s Event.cancel).stopped = true)
    ∧ (∀ (α : Type) (B : Nat) (f : List α → Option String)
        (pre post : List (Event α)),
        stdRun B f (pre ++ Event.cancel :: post)
          = stdRun B f (pre ++ [Event.cancel])) := by
  constructor
  · intro α B f s
    by_cases hs : s.stopped <;> simp [stdStep, hs]
  · intro α B f pre post
    have hstop : (stdStep B f (List.foldl (stdStep B f) stdInit pre)
        Event.cancel).stopped = true := by
      by_cases hs : (List.foldl (stdStep B f) stdInit pre).stopped <;>
        simp [stdStep, hs]
    rw [stdRun, stdRun, List.foldl_append, List.foldl_append,
      List.foldl_cons, List.foldl_cons, List.foldl_nil,
      foldl_stopped B f post _ hstop]

/-- Modelled from the spec: engine lifecycle phases — freshly constructed,
started (accumulator loop running), and terminally stopped after graceful
shutdown or cancellation. -/
inductive Phase where
  | created : Phase
  | running : Phase
  | stopped : Phase
  deriving DecidableEq, Repr

/-- Modelled from the spec: the error taxonomy raised synchronously to the
caller (`FlushError` is never synchronous; it travels on the error sink). -/
inductive EngineError where
  | lifecycleError : EngineError
  | configurationError : EngineError
  deriving DecidableEq, Repr

/-- Modelled from the spec: the engine handle observed by the lifecycle
surface — its phase plus a count of accumulator loops ever started. -/
structure EngineHandle where
  phase : Phase
  loopsStarted : Nat
  deriving DecidableEq, Repr

/-- Modelled from the spec: `start` launches the single accumulator loop on
a freshly created engine and returns a `LifecycleError` synchronously (as
the call's own result) when the engine is already started or has already
reached `Stopped`; an erroneous call starts no loop. -/
def startEngine (e : EngineHandle) : Except EngineError EngineHandle :=
  match e.phase with
  | .created => .ok { phase := .running, loopsStarted := e.loopsStarted + 1 }
  | .running => .error .lifecycleError
  | .stopped => .error .lifecycleError

/-- C8: Calling start on an engine that is already started, or again after
it reached `Stopped`, returns a `LifecycleError` synchronously to the caller
and never yields a started handle (no second accumulator loop is begun). -/
theorem start_twice_lifecycle_error :
    ∀ e : EngineHandle,
      e.phase = Phase.running ∨ e.phase = Phase.stopped →
      startEngine e = Except.error EngineError.lifecycleError
        ∧ ∀ e2 : EngineHandle, startEngine e ≠ Except.ok e2 := by
  intro e he
  rcases he with he | he <;>
    · rw [startEngine, he]
      exact ⟨rfl, fun e2 h => by simp at h⟩

/-- Closed witness for C8 on a running engine and on a stopped one. -/
theorem start_twice_lifecycle_error_witness :
    startEngine { phase := Phase.running, loopsStarted := 1 }
        = Except.error EngineError.lifecycleError
      ∧ startEngine { phase := Phase.stopped, loopsStarted := 1 }
          = Except.error EngineError.lifecycleError :=
  ⟨(start_twice_lifecycle_error { phase := Phase.running, loopsStarted := 1 }
      (Or.inl rfl)).1,
    (start_twice_lifecycle_error { phase := Phase.stopped, loopsStarted := 1 }
      (Or.inr rfl)).1⟩

/-- C6 counterexample: a configuration whose `FlushSize` is positive and
whose `FlushInterval` is positive, so the claim says it is accepted, is
nevertheless rejected by the repository's `validateConfig` because its
`BufferSize` (60) is below `2 × FlushSize` (100) — the ratio check is
enforced, not soft guidance. -/
theorem validateConfig_ratio_counterexample :
    validateConfig
        { BufferSize := 60, FlushSize := 50, FlushInterval := 50 * 1000000 }
        = some "BufferSize should be at least 2x FlushSize"
      ∧ (0 : Nat) < 50 ∧ (0 : Int) < 50 * 1000000 := by
  exact ⟨rfl, by decide, by decide⟩

/-- C6 (amended): `validateConfig` accepts a configuration exactly when the
buffer holds at least `2 × FlushSize` items (computed in `uint32`
arithmetic), `FlushSize` is non-zero, and `FlushInterval` is positive; every
other configuration is rejected with an error. -/
theorem validateConfig_accepts_iff :
    ∀ c : PipelineConfig,
      validateConfig c = none ↔
        c.FlushSize * 2 % 4294967296 ≤ c.BufferSize
          ∧ c.FlushSize ≠ 0 ∧ 0 < c.FlushInterval := by
  intro c
  simp only [validateConfig]
  split_ifs with h1 h2 h3 <;> simp <;> omega

/-- C9: The default configuration has buffer size 100, flush size 50 and a
50-millisecond flush interval (`50 * 10^6` nanoseconds); the defaults are
fixed constants of the construction, not mutable global state. -/
theorem default_configuration_values :
    NewPipelineConfig.BufferSize = 100
      ∧ NewPipelineConfig.FlushSize = 50
      ∧ NewPipelineConfig.FlushInterval = 50 * 1000000
      ∧ defaultBufferSize = 100
      ∧ defaultFlushSize = 50
      ∧ defaultFlushInterval = 50 * 1000000 :=
  ⟨rfl, rfl, rfl, rfl, rfl, rfl⟩

/-- C10: A `PipelineError` built from operation `op` and cause `cause`
formats its message as `"pipeline "` followed by `op`, `": "` and the
cause's message, and unwraps to exactly the original cause. -/
theorem pipeline_error_wrapping :
    ∀ (op : String) (cause : GoErr),
      (PipelineError.mk op cause).Error
          = "pipeline " ++ op ++ ": " ++ cause.message
        ∧ (PipelineError.mk op cause).Unwrap = cause := by
  intro op cause
  exact ⟨rfl, rfl⟩

end GoPipeline
